import Mathlib

/-!
Shallow embedding of the Rock-Paper-Scissors prediction engine of
`src/ai.js` (class `RockPaperScissorsAI`).

Modelling conventions:
* the JS string domain `'rock' | 'paper' | 'scissors'` is the inductive
  type `Move`; objects whose keys are exactly the three moves (declared in
  the fixed order rock, paper, scissors) are structures `Counts`; their
  `Object.entries` iteration order is that fixed field order;
* the insertion-ordered JS `Map` (field `patterns`) and the plain objects
  used as its values are association lists; `Map.set` / `obj[k] = v`
  update the first (unique) occurrence of a key in place and append fresh
  keys at the end, exactly as JS preserves insertion order;
* the dash-joined string keys of `patterns` (`'rock-rock'` etc.) are
  represented by the joined `List Move` itself; the join is injective on
  move names, so key equality coincides;
* JS numbers produced by the engine's arithmetic are modelled as exact
  rationals `ℚ` (the engine only compares them with 0 and thresholds that
  are far from the tiny binary-rounding error of IEEE doubles);
* `Math.random()`-driven choices (`randomMove`, the meta strategy's mixed
  move) are abstracted by an explicit oracle argument `r : Move`: each
  `predict` call consumes at most one random draw.
-/

inductive Move where
  | rock : Move
  | paper : Move
  | scissors : Move
deriving DecidableEq, Repr

/-- An object `{ rock: ·, paper: ·, scissors: · }` with natural-number
values (frequency counts and Markov-row counts). -/
structure Counts where
  rock : Nat
  paper : Nat
  scissors : Nat
deriving DecidableEq, Repr

def Counts.zero : Counts := ⟨0, 0, 0⟩

def Counts.get (c : Counts) : Move → Nat
  | Move.rock => c.rock
  | Move.paper => c.paper
  | Move.scissors => c.scissors

def Counts.incr (c : Counts) : Move → Counts
  | Move.rock => { c with rock := c.rock + 1 }
  | Move.paper => { c with paper := c.paper + 1 }
  | Move.scissors => { c with scissors := c.scissors + 1 }

def Counts.total (c : Counts) : Nat := c.rock + c.paper + c.scissors

/-- Entries in the object's fixed key order rock, paper, scissors,
mirroring `Object.entries` on `{rock: …, paper: …, scissors: …}`. -/
def Counts.entries (c : Counts) : List (Move × Nat) :=
  [(Move.rock, c.rock), (Move.paper, c.paper), (Move.scissors, c.scissors)]

/-- The `transitions` table: one `Counts` row per previous move. -/
structure TransTable where
  rock : Counts
  paper : Counts
  scissors : Counts
deriving DecidableEq, Repr

def TransTable.zero : TransTable := ⟨Counts.zero, Counts.zero, Counts.zero⟩

def TransTable.row (t : TransTable) : Move → Counts
  | Move.rock => t.rock
  | Move.paper => t.paper
  | Move.scissors => t.scissors

def TransTable.incr (t : TransTable) (fromMove toMove : Move) : TransTable :=
  match fromMove with
  | Move.rock => { t with rock := t.rock.incr toMove }
  | Move.paper => { t with paper := t.paper.incr toMove }
  | Move.scissors => { t with scissors := t.scissors.incr toMove }

/-- Association-list lookup: first entry whose key matches. -/
def lookupA {κ ν : Type} [DecidableEq κ] : List (κ × ν) → κ → Option ν
  | [], _ => none
  | e :: t, k => if e.1 = k then some e.2 else lookupA t k

/-- Association-list key assignment: overwrite the first occurrence of the
key in place (JS objects / `Map` keep the key's original position), append
at the end when the key is fresh. -/
def setA {κ ν : Type} [DecidableEq κ] : List (κ × ν) → κ → ν → List (κ × ν)
  | [], k, v => [(k, v)]
  | e :: t, k, v => if e.1 = k then (k, v) :: t else e :: setA t k v

/-- Value object of a pattern entry: insertion-ordered `nextMove → count`. -/
def PatObs : Type := List (Move × Nat)
deriving DecidableEq, Repr

/-- The insertion-ordered `patterns` Map, keyed by the 2–4 move window. -/
def Patterns : Type := List (List Move × PatObs)
deriving DecidableEq, Repr

/-- The mutable fields of a `RockPaperScissorsAI` instance. -/
structure AIState where
  history : List Move
  moveCounts : Counts
  transitions : TransTable
  patterns : Patterns
  counterAttempts : Nat
  totalMoves : Nat
  lastConfidence : ℚ
  lastPrediction : Option Move
deriving DecidableEq, Repr

/-- The constructor's initial state. -/
def initState : AIState :=
  { history := []
    moveCounts := Counts.zero
    transitions := TransTable.zero
    patterns := []
    counterAttempts := 0
    totalMoves := 0
    lastConfidence := 0
    lastPrediction := none }

/-- `history.slice(-n)` for n ≥ 1: the last `n` elements (all of them when
fewer than `n` exist). -/
def lastN {α : Type} (n : Nat) (l : List α) : List α := l.drop (l.length - n)

/-- `count[newMove] = (count[newMove] || 0) + 1` on a pattern-value object. -/
def bumpObs (obs : PatObs) (m : Move) : PatObs :=
  setA obs m ((lookupA obs m).getD 0 + 1)

/-- One `patterns.get / set` round: fetch the window's object (or a fresh
empty one), bump the observed move, store it back under the same key. -/
def bumpPattern (pats : Patterns) (key : List Move) (m : Move) : Patterns :=
  setA pats key (bumpObs ((lookupA pats key).getD []) m)

/-- `updatePatterns(newMove)`: for each window length 2, 3, 4 (in that
order) with enough pre-append history, bump the entry keyed by the last
`len` moves. `this.history` has not yet been appended to at call time. -/
def updatePatterns (hist : List Move) (m : Move) (pats : Patterns) : Patterns :=
  [2, 3, 4].foldl
    (fun ps len => if len ≤ hist.length then bumpPattern ps (lastN len hist) m else ps)
    pats

/-- `counterMove(move)`: the move that beats the argument. -/
def counterMove : Move → Move
  | Move.rock => Move.paper
  | Move.paper => Move.scissors
  | Move.scissors => Move.rock

/-- `learn(playerMove)`: frequency count, totalMoves, Markov transition
from the previous move (when one exists), pattern windows over the
pre-append history, counter-attempt detection against `lastPrediction`,
then append to history and cap it at 100 entries (FIFO shift). -/
def learn (m : Move) (s : AIState) : AIState :=
  let pushed := s.history ++ [m]
  { history := if 100 < pushed.length then pushed.tail else pushed
    moveCounts := s.moveCounts.incr m
    transitions :=
      match s.history.getLast? with
      | some lastMove => s.transitions.incr lastMove m
      | none => s.transitions
    patterns := updatePatterns s.history m s.patterns
    counterAttempts :=
      match s.lastPrediction with
      | some p => if counterMove p = m then s.counterAttempts + 1 else s.counterAttempts
      | none => s.counterAttempts
    totalMoves := s.totalMoves + 1
    lastConfidence := s.lastConfidence
    lastPrediction := s.lastPrediction }

/-- The `maxCount`/`predictedMove` scan: start from `('rock', 0)` and
replace the running best only on a strictly greater count, in entry
order. -/
def scanMax (l : List (Move × Nat)) : Move × Nat :=
  l.foldl (fun best e => if best.2 < e.2 then e else best) (Move.rock, 0)

/-- `predictByFrequency()`. -/
def predictByFrequency (s : AIState) : Option Move × ℚ :=
  if s.totalMoves = 0 then (none, 0)
  else
    let best := scanMax s.moveCounts.entries
    (some best.1, (best.2 : ℚ) / (s.totalMoves : ℚ) * 100)

/-- `predictByMarkov()`. -/
def predictByMarkov (s : AIState) : Option Move × ℚ :=
  match s.history.getLast? with
  | none => (none, 0)
  | some lastMove =>
    let row := s.transitions.row lastMove
    if row.total = 0 then (none, 0)
    else
      let best := scanMax row.entries
      (some best.1, (best.2 : ℚ) / (row.total : ℚ) * 100)

/-- `Object.values(nextMoves).reduce((a,b) => a+b, …)` on a pattern-value
object. -/
def obsTotal (obs : PatObs) : Nat := (obs.map (fun e => e.2)).sum

/-- The body executed by `predictByPattern` once a window's entry is found:
max-count scan over the object's entries in insertion order. -/
def predictFromObs (obs : PatObs) : Option Move × ℚ :=
  let best := scanMax obs
  (some best.1, (best.2 : ℚ) / (obsTotal obs : ℚ) * 100)

/-- One iteration of `predictByPattern`'s length loop: `none` when this
length produces no entry (too little history or no stored pattern). -/
def patPredictAt (s : AIState) (len : Nat) : Option (Option Move × ℚ) :=
  if len ≤ s.history.length then
    match lookupA s.patterns (lastN len s.history) with
    | some obs => some (predictFromObs obs)
    | none => none
  else none

/-- `predictByPattern()`: lengths 4, 3, 2, first hit wins. -/
def predictByPattern (s : AIState) : Option Move × ℚ :=
  if s.history.length < 2 then (none, 0)
  else
    match patPredictAt s 4 with
    | some res => res
    | none =>
      match patPredictAt s 3 with
      | some res => res
      | none =>
        match patPredictAt s 2 with
        | some res => res
        | none => (none, 0)

/-- `predictByMetaStrategy()`: the uniformly random mixed move is the
oracle `r`. -/
def predictByMeta (r : Move) (s : AIState) : Option Move × ℚ :=
  if s.totalMoves < 10 then (none, 0)
  else
    let counterRate : ℚ := (s.counterAttempts : ℚ) / (s.totalMoves : ℚ)
    if (0.6 : ℚ) < counterRate then (some r, 50) else (none, 0)

/-- The combiner's per-move score accumulator `{rock: 0, paper: 0,
scissors: 0}`. -/
structure Scores where
  rock : ℚ
  paper : ℚ
  scissors : ℚ
deriving DecidableEq, Repr

def Scores.zero : Scores := ⟨0, 0, 0⟩

def Scores.total (sc : Scores) : ℚ := sc.rock + sc.paper + sc.scissors

/-- `scores[prediction.move] += weight * prediction.confidence`, a no-op
when the sub-predictor abstained (`move: null`). -/
def addScore (sc : Scores) (p : Option Move × ℚ) (w : ℚ) : Scores :=
  match p.1 with
  | none => sc
  | some Move.rock => { sc with rock := sc.rock + w * p.2 }
  | some Move.paper => { sc with paper := sc.paper + w * p.2 }
  | some Move.scissors => { sc with scissors := sc.scissors + w * p.2 }

/-- The four weighted contributions, in the object-literal iteration order
frequency, markov, pattern, meta with weights 0.2, 0.4, 0.3, 0.1. -/
def combinedScores (r : Move) (s : AIState) : Scores :=
  addScore
    (addScore
      (addScore
        (addScore Scores.zero (predictByFrequency s) (0.2 : ℚ))
        (predictByMarkov s) (0.4 : ℚ))
      (predictByPattern s) (0.3 : ℚ))
    (predictByMeta r s) (0.1 : ℚ)

/-- The `bestMove`/`bestScore` scan over `Object.entries(scores)`:
starts at `('rock', 0)`, strict `>` replacement, fixed key order. -/
def scanMaxQ (l : List (Move × ℚ)) : Move × ℚ :=
  l.foldl (fun best e => if best.2 < e.2 then e else best) (Move.rock, 0)

def Scores.entries (sc : Scores) : List (Move × ℚ) :=
  [(Move.rock, sc.rock), (Move.paper, sc.paper), (Move.scissors, sc.scissors)]

/-- `predict()`: cold start below 5 total moves (random move, confidence
33, `lastPrediction` untouched); otherwise the weighted ensemble. Returns
the predicted move together with the updated instance state. -/
def predict (r : Move) (s : AIState) : Move × AIState :=
  if s.totalMoves < 5 then
    (r, { s with lastConfidence := 33 })
  else
    let sc := combinedScores r s
    let best := scanMaxQ sc.entries
    let conf := if 0 < sc.total then min 100 (best.2 / sc.total * 100) else (33 : ℚ)
    (best.1, { s with lastConfidence := conf, lastPrediction := some best.1 })

/-- `getMove()`: counter the prediction. -/
def getMove (r : Move) (s : AIState) : Move × AIState :=
  let res := predict r s
  (counterMove res.1, res.2)

/-- `Math.round`: half-up rounding. -/
def jsRound (q : ℚ) : ℤ := ⌊q + 1 / 2⌋

/-- `getConfidence()`. -/
def getConfidence (s : AIState) : ℤ := jsRound s.lastConfidence

/-- `getRecentHistory(n)` is `history.slice(-n)`. The source's default
argument is `n = 10`. In JS `-0 === 0`, so `slice(-0)` is `slice(0)`: the
whole history, not an empty slice. -/
def getRecentHistory (n : Nat) (s : AIState) : List Move :=
  if n = 0 then s.history else s.history.drop (s.history.length - n)

/-- `reset()`: every field back to its constructor value. -/
def reset (_s : AIState) : AIState :=
  { history := []
    moveCounts := Counts.zero
    transitions := TransTable.zero
    patterns := []
    counterAttempts := 0
    totalMoves := 0
    lastConfidence := 0
    lastPrediction := none }

/-- States reachable from a fresh engine by any interleaving of the
mutating operations (`learn`, `predict` — and hence `getMove` — and
`reset`; the remaining getters are pure). -/
inductive Reachable : AIState → Prop where
  | init : Reachable initState
  | learn : ∀ (s : AIState) (m : Move), Reachable s → Reachable (learn m s)
  | predict : ∀ (s : AIState) (r : Move), Reachable s → Reachable (predict r s).2
  | reset : ∀ (s : AIState), Reachable s → Reachable (reset s)

/-- Run a list of observations left to right. -/
def runLearns (ms : List Move) (s : AIState) : AIState :=
  ms.foldl (fun st m => learn m st) s

/-- One element of `getPatternsSummary`'s result: the object
`{ pattern, nextMoves, total }` built for each Map entry. -/
structure PatternSummary where
  pattern : List Move
  nextMoves : PatObs
  total : Nat
deriving DecidableEq, Repr

/-- The mapped array before sorting, tagged with each entry's position in
the Map's insertion order (used to model the stability of
`Array.prototype.sort`). -/
def summaryEntries (s : AIState) : List (Nat × PatternSummary) :=
  s.patterns.enum.map (fun e => (e.1, ⟨e.2.1, e.2.2, obsTotal e.2.2⟩))

/-- The order realized by the stable `sort((a, b) => b.total - a.total)`:
greater total first, and on equal totals the earlier-inserted entry first.
A stable sort under a comparator is exactly a sort under this
lexicographic key, so the embedding sorts by it directly. -/
def summLe (a b : Nat × PatternSummary) : Bool :=
  decide (b.2.total < a.2.total) ||
    (decide (a.2.total = b.2.total) && decide (a.1 ≤ b.1))

/-- Insert into a sorted list: in front of the first element it is
`le`-before. -/
def insertLe {α : Type} (le : α → α → Bool) (x : α) : List α → List α
  | [] => [x]
  | y :: ys => if le x y then x :: y :: ys else y :: insertLe le x ys

/-- Insertion sort with respect to a boolean total preorder. -/
def sortLe {α : Type} (le : α → α → Bool) : List α → List α
  | [] => []
  | x :: xs => insertLe le x (sortLe le xs)

/-- The sorted, still index-tagged pattern summaries. -/
def rankedSummaries (s : AIState) : List (Nat × PatternSummary) :=
  sortLe summLe (summaryEntries s)

/-- `getPatternsSummary()`: sort the mapped entries by total descending
(stable) and keep the first 5. The source takes no parameter; the cutoff
5 is hard-coded by `slice(0, 5)`. -/
def getPatternsSummary (s : AIState) : List PatternSummary :=
  ((rankedSummaries s).take 5).map (fun e => e.2)

/-- Modelled from the spec: `getPatternsSummary(limit = 5)` as §6 of the
spec describes it, an ordered list of at most `limit` entries sorted by
total descending (ties by insertion order). Used only to compare the
spec's configurable-limit signature with the source's parameterless one. -/
def getPatternsSummarySpec (limit : Nat) (s : AIState) : List PatternSummary :=
  ((rankedSummaries s).take limit).map (fun e => e.2)

/-- One game round as driven by `game.js`: `getMove()` (with its random
oracle) followed by `observe`/`learn` of the player's move. -/
def runRounds : List (Move × Move) → AIState → AIState
  | [], s => s
  | rm :: t, s => runRounds t (learn rm.2 (getMove rm.1 s).2)

/-!
JavaScript-level model of `learn` on raw strings, used to settle what
`observe` does on values outside the three-move domain. Values stored in
the tables are JS numbers that may be `NaN` (the result of `undefined++`).
`lastConfidence` is omitted: `learn` neither reads nor writes it.
-/

inductive JVal where
  | num : ℚ → JVal
  | nan : JVal
deriving DecidableEq, Repr

structure JSState where
  history : List String
  moveCounts : List (String × JVal)
  transitions : List (String × List (String × JVal))
  patterns : List (List String × List (String × JVal))
  counterAttempts : Nat
  totalMoves : Nat
  lastPrediction : Option String
deriving DecidableEq, Repr

def jsRow0 : List (String × JVal) :=
  [("rock", JVal.num 0), ("paper", JVal.num 0), ("scissors", JVal.num 0)]

/-- The constructor's state at the string level. -/
def jsInit : JSState :=
  { history := []
    moveCounts := jsRow0
    transitions := [("rock", jsRow0), ("paper", jsRow0), ("scissors", jsRow0)]
    patterns := []
    counterAttempts := 0
    totalMoves := 0
    lastPrediction := none }

/-- `obj[k]++`: a number is incremented; a missing key reads as
`undefined`, and `undefined + 1` is `NaN`, which is then stored under the
key; `NaN + 1` stays `NaN`. -/
def jsIncrVal : Option JVal → JVal
  | some (JVal.num q) => JVal.num (q + 1)
  | some JVal.nan => JVal.nan
  | none => JVal.nan

def jsIncrKey (l : List (String × JVal)) (k : String) : List (String × JVal) :=
  setA l k (jsIncrVal (lookupA l k))

/-- `count[newMove] = (count[newMove] || 0) + 1`: `NaN` and `undefined`
are falsy, so they read as 0 before the increment. -/
def jsBumpVal : Option JVal → JVal
  | some (JVal.num q) => JVal.num (q + 1)
  | some JVal.nan => JVal.num 1
  | none => JVal.num 1

def jsBumpObs (obs : List (String × JVal)) (m : String) : List (String × JVal) :=
  setA obs m (jsBumpVal (lookupA obs m))

def jsBumpPattern (pats : List (List String × List (String × JVal)))
    (key : List String) (m : String) : List (List String × List (String × JVal)) :=
  setA pats key (jsBumpObs ((lookupA pats key).getD []) m)

def jsUpdatePatterns (hist : List String) (m : String)
    (pats : List (List String × List (String × JVal))) :
    List (List String × List (String × JVal)) :=
  [2, 3, 4].foldl
    (fun ps len => if len ≤ hist.length then jsBumpPattern ps (lastN len hist) m else ps)
    pats

/-- `counters[move]` in `counterMove`: `undefined` for junk strings. -/
def jsCounterMove (m : String) : Option String :=
  lookupA [("rock", "paper"), ("paper", "scissors"), ("scissors", "rock")] m

/-- `learn(playerMove)` at the string level. `none` models the `TypeError`
thrown by `transitions[lastMove][playerMove]++` when `lastMove` is a junk
string with no transition row (possible only after junk already entered
the history); in every other case — junk `playerMove` included — the call
completes and mutates the tables. -/
def jsLearn (m : String) (s : JSState) : Option JSState :=
  let trStep : Option (List (String × List (String × JVal))) :=
    match s.history.getLast? with
    | none => some s.transitions
    | some lastMove =>
      match lookupA s.transitions lastMove with
      | none => none
      | some row => some (setA s.transitions lastMove (jsIncrKey row m))
  match trStep with
  | none => none
  | some tr =>
    let pushed := s.history ++ [m]
    some
      { history := if 100 < pushed.length then pushed.tail else pushed
        moveCounts := jsIncrKey s.moveCounts m
        transitions := tr
        patterns := jsUpdatePatterns s.history m s.patterns
        counterAttempts :=
          match s.lastPrediction with
          | some p =>
            if jsCounterMove p = some m then s.counterAttempts + 1 else s.counterAttempts
          | none => s.counterAttempts
        totalMoves := s.totalMoves + 1
        lastPrediction := s.lastPrediction }

/-!
Association-list laws and the pattern-table update characterization.
-/

/-- Count stored for `mv` in a pattern-value object (0 when absent). -/
def obsCount (obs : PatObs) (mv : Move) : Nat := (lookupA obs mv).getD 0

/-- Count stored in the pattern table for window `key` and next move `mv`
(0 when either level is absent). -/
def patLookup (pats : Patterns) (key : List Move) (mv : Move) : Nat :=
  obsCount ((lookupA pats key).getD []) mv

/-- Run a list of `getMove` calls (one oracle each), keeping the state. -/
def runGetMoves (rs : List Move) (s : AIState) : AIState :=
  rs.foldl (fun st r => (getMove r st).2) s

/-- The state reached from a fresh engine after observing six ROCKs. -/
def sC1 : AIState :=
  runLearns [Move.rock, Move.rock, Move.rock, Move.rock, Move.rock, Move.rock] initState

/-- The state `sC1` after one warm prediction has been retained. -/
def sC1fix : AIState := { sC1 with lastConfidence := 100, lastPrediction := some Move.rock }

/-- A reachable warm state whose latest move (ROCK) has an all-zero
transition row: observed PAPER, PAPER, PAPER, PAPER, ROCK. -/
def sC2 : AIState :=
  runLearns [Move.paper, Move.paper, Move.paper, Move.paper, Move.rock] initState

/-- A reachable state holding nine distinct pattern windows. -/
def sC3 : AIState :=
  runLearns [Move.rock, Move.paper, Move.scissors, Move.rock, Move.paper, Move.scissors,
    Move.rock, Move.paper] initState

/-- A fresh engine after observing a single ROCK. -/
def sC8 : AIState := learn Move.rock initState

theorem lookupA_setA_self {κ ν : Type} [DecidableEq κ] (l : List (κ × ν)) (k : κ) (v : ν) :
    lookupA (setA l k v) k = some v := by
  induction l with
  | nil => simp [setA, lookupA]
  | cons e t ih =>
    by_cases h : e.1 = k
    · simp [setA, h, lookupA]
    · simp [setA, h, lookupA, ih]

theorem lookupA_setA_ne {κ ν : Type} [DecidableEq κ] (l : List (κ × ν)) (k k' : κ) (v : ν)
    (h : k' ≠ k) : lookupA (setA l k v) k' = lookupA l k' := by
  have hks : ¬(k = k') := fun h' => h h'.symm
  induction l with
  | nil => simp [setA, lookupA, hks]
  | cons e t ih =>
    by_cases he : e.1 = k
    · have he' : ¬(e.1 = k') := by rw [he]; exact hks
      simp [setA, he, lookupA, hks, he']
    · simp [setA, he, lookupA, ih]

theorem obsCount_bumpObs (obs : PatObs) (m mv : Move) :
    obsCount (bumpObs obs m) mv = obsCount obs mv + if mv = m then 1 else 0 := by
  by_cases h : mv = m
  · subst h
    simp [obsCount, bumpObs, lookupA_setA_self]
  · simp [obsCount, bumpObs, lookupA_setA_ne _ _ _ _ h, h]

theorem patLookup_bumpPattern (pats : Patterns) (key key' : List Move) (m mv : Move) :
    patLookup (bumpPattern pats key m) key' mv =
      patLookup pats key' mv + if key' = key ∧ mv = m then 1 else 0 := by
  by_cases hk : key' = key
  · subst hk
    simp only [patLookup, bumpPattern, lookupA_setA_self, Option.getD_some,
      obsCount_bumpObs]
    simp
  · simp [patLookup, bumpPattern, lookupA_setA_ne _ _ _ _ hk, hk]

theorem lastN_length {α : Type} (n : Nat) (l : List α) (h : n ≤ l.length) :
    (lastN n l).length = n := by
  simp [lastN]
  omega

theorem key_window_length {key hist : List Move} {L : Nat} (hL : L ≤ hist.length)
    (hk : key = lastN L hist) : key.length = L := by
  subst hk; exact lastN_length L hist hL

theorem updatePatterns_patLookup (hist : List Move) (m : Move) (pats : Patterns)
    (key : List Move) (mv : Move) :
    patLookup (updatePatterns hist m pats) key mv =
      patLookup pats key mv +
        if 2 ≤ key.length ∧ key.length ≤ 4 ∧ key.length ≤ hist.length ∧
            key = lastN key.length hist ∧ mv = m
        then 1 else 0 := by
  simp only [updatePatterns, List.foldl]
  by_cases hm : mv = m
  case neg =>
    have hC : ¬(2 ≤ key.length ∧ key.length ≤ 4 ∧ key.length ≤ hist.length ∧
        key = lastN key.length hist ∧ mv = m) := by
      rintro ⟨-, -, -, -, h⟩; exact hm h
    split_ifs <;> simp [patLookup_bumpPattern, hm]
  case pos =>
    subst hm
    simp only [eq_self_iff_true, and_true]
    by_cases h4 : 4 ≤ hist.length
    · have h3 : 3 ≤ hist.length := by omega
      have h2 : 2 ≤ hist.length := by omega
      rw [if_pos h2, if_pos h3, if_pos h4, patLookup_bumpPattern,
        patLookup_bumpPattern, patLookup_bumpPattern]
      simp only [eq_self_iff_true, and_true]
      by_cases hk2 : key = lastN 2 hist
      · have hl : key.length = 2 := key_window_length h2 hk2
        have hk3 : ¬(key = lastN 3 hist) := fun h => by
          have := key_window_length h3 h; omega
        have hk4 : ¬(key = lastN 4 hist) := fun h => by
          have := key_window_length h4 h; omega
        have hC : 2 ≤ key.length ∧ key.length ≤ 4 ∧ key.length ≤ hist.length ∧
            key = lastN key.length hist := ⟨by omega, by omega, by omega, by
          rw [hl]; exact hk2⟩
        rw [if_pos hk2, if_neg hk3, if_neg hk4, if_pos hC]
      · by_cases hk3 : key = lastN 3 hist
        · have hl : key.length = 3 := key_window_length h3 hk3
          have hk4 : ¬(key = lastN 4 hist) := fun h => by
            have := key_window_length h4 h; omega
          have hC : 2 ≤ key.length ∧ key.length ≤ 4 ∧ key.length ≤ hist.length ∧
              key = lastN key.length hist := ⟨by omega, by omega, by omega, by
            rw [hl]; exact hk3⟩
          rw [if_neg hk2, if_pos hk3, if_neg hk4, if_pos hC]
        · by_cases hk4 : key = lastN 4 hist
          · have hl : key.length = 4 := key_window_length h4 hk4
            have hC : 2 ≤ key.length ∧ key.length ≤ 4 ∧ key.length ≤ hist.length ∧
                key = lastN key.length hist := ⟨by omega, by omega, by omega, by
              rw [hl]; exact hk4⟩
            rw [if_neg hk2, if_neg hk3, if_pos hk4, if_pos hC]
          · have hC : ¬(2 ≤ key.length ∧ key.length ≤ 4 ∧ key.length ≤ hist.length ∧
                key = lastN key.length hist) := by
              rintro ⟨a, b, c, d⟩
              have : key.length = 2 ∨ key.length = 3 ∨ key.length = 4 := by omega
              rcases this with h | h | h <;> rw [h] at d
              · exact hk2 d
              · exact hk3 d
              · exact hk4 d
            rw [if_neg hk2, if_neg hk3, if_neg hk4, if_neg hC]
    · by_cases h3 : 3 ≤ hist.length
      · have h2 : 2 ≤ hist.length := by omega
        rw [if_pos h2, if_pos h3, if_neg h4, patLookup_bumpPattern, patLookup_bumpPattern]
        simp only [eq_self_iff_true, and_true]
        by_cases hk2 : key = lastN 2 hist
        · have hl : key.length = 2 := key_window_length h2 hk2
          have hk3 : ¬(key = lastN 3 hist) := fun h => by
            have := key_window_length h3 h; omega
          have hC : 2 ≤ key.length ∧ key.length ≤ 4 ∧ key.length ≤ hist.length ∧
              key = lastN key.length hist := ⟨by omega, by omega, by omega, by
            rw [hl]; exact hk2⟩
          rw [if_pos hk2, if_neg hk3, if_pos hC]
        · by_cases hk3 : key = lastN 3 hist
          · have hl : key.length = 3 := key_window_length h3 hk3
            have hC : 2 ≤ key.length ∧ key.length ≤ 4 ∧ key.length ≤ hist.length ∧
                key = lastN key.length hist := ⟨by omega, by omega, by omega, by
              rw [hl]; exact hk3⟩
            rw [if_neg hk2, if_pos hk3, if_pos hC]
          · have hC : ¬(2 ≤ key.length ∧ key.length ≤ 4 ∧ key.length ≤ hist.length ∧
                key = lastN key.length hist) := by
              rintro ⟨a, b, c, d⟩
              have hle : key.length ≤ 3 := by omega
              have : key.length = 2 ∨ key.length = 3 := by omega
              rcases this with h | h <;> rw [h] at d
              · exact hk2 d
              · exact hk3 d
            rw [if_neg hk2, if_neg hk3, if_neg hC]
      · by_cases h2 : 2 ≤ hist.length
        · rw [if_pos h2, if_neg h3, if_neg h4, patLookup_bumpPattern]
          simp only [eq_self_iff_true, and_true]
          by_cases hk2 : key = lastN 2 hist
          · have hl : key.length = 2 := key_window_length h2 hk2
            have hC : 2 ≤ key.length ∧ key.length ≤ 4 ∧ key.length ≤ hist.length ∧
                key = lastN key.length hist := ⟨by omega, by omega, by omega, by
              rw [hl]; exact hk2⟩
            rw [if_pos hk2, if_pos hC]
          · have hC : ¬(2 ≤ key.length ∧ key.length ≤ 4 ∧ key.length ≤ hist.length ∧
                key = lastN key.length hist) := by
              rintro ⟨a, b, c, d⟩
              have : key.length = 2 := by omega
              rw [this] at d
              exact hk2 d
            rw [if_neg hk2, if_neg hC]
        · rw [if_neg h2, if_neg h3, if_neg h4]
          have hC : ¬(2 ≤ key.length ∧ key.length ≤ 4 ∧ key.length ≤ hist.length ∧
              key = lastN key.length hist) := by
            rintro ⟨a, b, c, -⟩; omega
          rw [if_neg hC]
          omega

theorem Counts.total_incr (c : Counts) (m : Move) : (c.incr m).total = c.total + 1 := by
  cases m <;> simp [Counts.incr, Counts.total] <;> omega

theorem predict_frame (r : Move) (s : AIState) :
    (predict r s).2.history = s.history ∧ (predict r s).2.moveCounts = s.moveCounts ∧
      (predict r s).2.transitions = s.transitions ∧ (predict r s).2.patterns = s.patterns ∧
      (predict r s).2.counterAttempts = s.counterAttempts ∧
      (predict r s).2.totalMoves = s.totalMoves := by
  unfold predict
  split <;> simp

/-- Invariant behind §8's frequency property: the three frequency counts
always add up to `totalMoves`. -/
theorem reachable_counts_sum {s : AIState} (h : Reachable s) :
    s.moveCounts.total = s.totalMoves := by
  induction h with
  | init => rfl
  | learn s m _ ih =>
    show (s.moveCounts.incr m).total = s.totalMoves + 1
    rw [Counts.total_incr, ih]
  | predict s r _ ih =>
    have hf := predict_frame r s
    rw [hf.2.1, hf.2.2.2.2.2]
    exact ih
  | reset s _ ih => rfl

theorem predictByMarkov_nonneg (s : AIState) : 0 ≤ (predictByMarkov s).2 := by
  unfold predictByMarkov
  split
  · simp
  · dsimp only
    split
    · simp
    · simp only
      positivity

theorem predictFromObs_nonneg (obs : PatObs) : 0 ≤ (predictFromObs obs).2 := by
  unfold predictFromObs
  simp only
  positivity

theorem patPredictAt_nonneg (s : AIState) (len : Nat) (res : Option Move × ℚ)
    (h : patPredictAt s len = some res) : 0 ≤ res.2 := by
  unfold patPredictAt at h
  split at h
  · split at h
    · cases h
      exact predictFromObs_nonneg _
    · cases h
  · cases h

theorem predictByPattern_nonneg (s : AIState) : 0 ≤ (predictByPattern s).2 := by
  unfold predictByPattern
  split
  · simp
  · split
    · exact patPredictAt_nonneg s 4 _ (by assumption)
    · split
      · exact patPredictAt_nonneg s 3 _ (by assumption)
      · split
        · exact patPredictAt_nonneg s 2 _ (by assumption)
        · simp

theorem predictByMeta_nonneg (r : Move) (s : AIState) : 0 ≤ (predictByMeta r s).2 := by
  unfold predictByMeta
  split
  · simp
  · dsimp only
    split <;> simp

theorem Scores.total_addScore_le (sc : Scores) (p : Option Move × ℚ) (w : ℚ)
    (h : 0 ≤ w * p.2) : sc.total ≤ (addScore sc p w).total := by
  rcases p with ⟨mo, c⟩
  cases mo with
  | none => simp [addScore]
  | some m =>
    cases m <;> simp [addScore, Scores.total] <;> linarith

theorem Scores.total_addScore_some (sc : Scores) (p : Option Move × ℚ) (w : ℚ)
    (m : Move) (h : p.1 = some m) : (addScore sc p w).total = sc.total + w * p.2 := by
  rcases p with ⟨mo, c⟩
  simp only at h
  subst h
  cases m <;> simp [addScore, Scores.total] <;> ring

theorem scanMax_counts_ge (c : Counts) :
    c.rock ≤ (scanMax c.entries).2 ∧ c.paper ≤ (scanMax c.entries).2 ∧
      c.scissors ≤ (scanMax c.entries).2 := by
  simp [scanMax, Counts.entries, List.foldl]
  split_ifs <;> simp_all <;> omega

theorem predictByFrequency_pos (s : AIState) (hsum : s.moveCounts.total = s.totalMoves)
    (h5 : 5 ≤ s.totalMoves) :
    (predictByFrequency s).1 = some (scanMax s.moveCounts.entries).1 ∧
      0 < (predictByFrequency s).2 := by
  have hT : ¬(s.totalMoves = 0) := by omega
  have hge := scanMax_counts_ge s.moveCounts
  have hbc : 1 ≤ (scanMax s.moveCounts.entries).2 := by
    have := s.moveCounts.total
    unfold Counts.total at hsum
    omega
  unfold predictByFrequency
  rw [if_neg hT]
  refine ⟨rfl, ?_⟩
  simp only
  have h1 : (0 : ℚ) < ((scanMax s.moveCounts.entries).2 : ℚ) := by exact_mod_cast hbc
  have h2 : (0 : ℚ) < (s.totalMoves : ℚ) := by
    have : 0 < s.totalMoves := by omega
    exact_mod_cast this
  positivity

theorem summLe_eq_true_iff (a b : Nat × PatternSummary) :
    summLe a b = true ↔
      b.2.total < a.2.total ∨ (a.2.total = b.2.total ∧ a.1 ≤ b.1) := by
  simp [summLe]

theorem summLe_total_pre (a b : Nat × PatternSummary) :
    summLe a b = true ∨ summLe b a = true := by
  rw [summLe_eq_true_iff, summLe_eq_true_iff]
  omega

theorem summLe_trans (a b c : Nat × PatternSummary) (h1 : summLe a b = true)
    (h2 : summLe b c = true) : summLe a c = true := by
  rw [summLe_eq_true_iff] at h1 h2 ⊢
  omega

theorem perm_insertLe {α : Type} (le : α → α → Bool) (x : α) (l : List α) :
    List.Perm (insertLe le x l) (x :: l) := by
  induction l with
  | nil => simp [insertLe]
  | cons y ys ih =>
    by_cases h : le x y
    · simp [insertLe, h]
    · simp only [insertLe, if_neg h]
      exact (List.Perm.cons y ih).trans (List.Perm.swap x y ys)

theorem perm_sortLe {α : Type} (le : α → α → Bool) (l : List α) :
    List.Perm (sortLe le l) l := by
  induction l with
  | nil => simp [sortLe]
  | cons x xs ih => exact (perm_insertLe le x (sortLe le xs)).trans (List.Perm.cons x ih)

theorem pairwise_insertLe {α : Type} (le : α → α → Bool)
    (htot : ∀ a b, le a b = true ∨ le b a = true)
    (htrans : ∀ a b c, le a b = true → le b c = true → le a c = true)
    (x : α) (l : List α) (hl : List.Pairwise (fun a b => le a b = true) l) :
    List.Pairwise (fun a b => le a b = true) (insertLe le x l) := by
  induction l with
  | nil => simp [insertLe]
  | cons y ys ih =>
    rcases hl with - | ⟨hy, hys⟩
    by_cases h : le x y
    · simp only [insertLe]
      rw [if_pos h]
      refine List.Pairwise.cons ?_ (List.Pairwise.cons hy hys)
      intro z hz
      rcases List.mem_cons.mp hz with rfl | hz2
      · exact h
      · exact htrans x y z h (hy z hz2)
    · have hyx : le y x = true := (htot x y).resolve_left h
      simp only [insertLe]
      rw [if_neg h]
      refine List.Pairwise.cons ?_ (ih hys)
      intro z hz
      have hz' : z ∈ x :: ys := (perm_insertLe le x ys).mem_iff.mp hz
      rcases List.mem_cons.mp hz' with rfl | hz2
      · exact hyx
      · exact hy z hz2

theorem pairwise_sortLe {α : Type} (le : α → α → Bool)
    (htot : ∀ a b, le a b = true ∨ le b a = true)
    (htrans : ∀ a b c, le a b = true → le b c = true → le a c = true)
    (l : List α) : List.Pairwise (fun a b => le a b = true) (sortLe le l) := by
  induction l with
  | nil => simp [sortLe]
  | cons x xs ih => exact pairwise_insertLe le htot htrans x (sortLe le xs) ih

theorem perm_rankedSummaries (s : AIState) :
    List.Perm (rankedSummaries s) (summaryEntries s) :=
  perm_sortLe summLe (summaryEntries s)

theorem nodup_fst_summaryEntries (s : AIState) :
    ((summaryEntries s).map Prod.fst).Nodup := by
  simp only [summaryEntries, List.map_map]
  have hcomp : (Prod.fst ∘ fun e : Nat × (List Move × PatObs) =>
      ((e.1 : Nat), (⟨e.2.1, e.2.2, obsTotal e.2.2⟩ : PatternSummary))) = Prod.fst := rfl
  rw [hcomp]
  exact List.nodup_enum_map_fst s.patterns

/-- The ranked pattern list is strictly ordered by the stable-sort key:
total descending, with ties broken by insertion position ascending. -/
theorem pairwise_rankedSummaries (s : AIState) :
    List.Pairwise
      (fun a b : Nat × PatternSummary =>
        b.2.total < a.2.total ∨ (a.2.total = b.2.total ∧ a.1 < b.1))
      (rankedSummaries s) := by
  have hle : List.Pairwise (fun a b => summLe a b = true) (rankedSummaries s) :=
    pairwise_sortLe summLe summLe_total_pre summLe_trans (summaryEntries s)
  have hnd : ((rankedSummaries s).map Prod.fst).Nodup := by
    rw [((perm_rankedSummaries s).map Prod.fst).nodup_iff]
    exact nodup_fst_summaryEntries s
  have hne : List.Pairwise (fun a b : Nat × PatternSummary => a.1 ≠ b.1) (rankedSummaries s) :=
    List.pairwise_map.mp hnd
  refine (hle.and hne).imp ?_
  intro a b hab
  rcases hab with ⟨hab, hne'⟩
  rw [summLe_eq_true_iff] at hab
  omega

theorem predict_cold (r : Move) (s : AIState) (h : s.totalMoves < 5) :
    predict r s = (r, { s with lastConfidence := 33 }) := by
  unfold predict
  rw [if_pos h]

theorem reachable_runLearns (ms : List Move) (s : AIState) (h : Reachable s) :
    Reachable (runLearns ms s) := by
  induction ms generalizing s with
  | nil => exact h
  | cons m t ih => exact ih (learn m s) (Reachable.learn s m h)

theorem runRounds_cold (ps : List (Move × Move)) (s : AIState)
    (hp : s.lastPrediction = none) (hc : s.counterAttempts = 0)
    (ht : s.totalMoves + ps.length ≤ 5) :
    (runRounds ps s).lastPrediction = none ∧ (runRounds ps s).counterAttempts = 0 ∧
      (runRounds ps s).totalMoves = s.totalMoves + ps.length := by
  induction ps generalizing s with
  | nil => exact ⟨hp, hc, by simp [runRounds]⟩
  | cons rm t ih =>
    have hlen : (rm :: t).length = t.length + 1 := rfl
    have hcold : s.totalMoves < 5 := by rw [hlen] at ht; omega
    have hgm : (getMove rm.1 s).2 = { s with lastConfidence := 33 } := by
      unfold getMove
      rw [predict_cold rm.1 s hcold]
    have step : runRounds (rm :: t) s = runRounds t (learn rm.2 (getMove rm.1 s).2) := rfl
    rw [step, hgm]
    have h1 : (learn rm.2 { s with lastConfidence := (33 : ℚ) }).lastPrediction = none := hp
    have h2 : (learn rm.2 { s with lastConfidence := (33 : ℚ) }).counterAttempts = 0 := by
      simp only [learn, hp]
      exact hc
    have h3 : (learn rm.2 { s with lastConfidence := (33 : ℚ) }).totalMoves = s.totalMoves + 1 := rfl
    have key := ih (learn rm.2 { s with lastConfidence := (33 : ℚ) }) h1 h2
      (by rw [h3]; rw [hlen] at ht; omega)
    refine ⟨key.1, key.2.1, ?_⟩
    rw [key.2.2, h3, hlen]
    omega

theorem predict_sC1 (r : Move) : predict r sC1 = (Move.rock, sC1fix) := by
  cases r <;>
    norm_num +decide [List.foldl, List.map, List.sum_cons, List.sum_nil, predict,
      combinedScores, predictByFrequency, predictByMarkov, predictByPattern,
      predictByMeta, patPredictAt, predictFromObs, scanMax, scanMaxQ, addScore, Scores.entries,
      Scores.total, Counts.entries, obsTotal, sC1, sC1fix, runLearns, learn, updatePatterns,
      bumpPattern, bumpObs, setA, lookupA, lastN, initState, Counts.incr, TransTable.incr,
      TransTable.row, counterMove, Counts.total, Scores.zero, Counts.zero, TransTable.zero]

theorem predict_sC1fix (r : Move) : predict r sC1fix = (Move.rock, sC1fix) := by
  cases r <;>
    norm_num +decide [List.foldl, List.map, List.sum_cons, List.sum_nil, predict,
      combinedScores, predictByFrequency, predictByMarkov, predictByPattern,
      predictByMeta, patPredictAt, predictFromObs, scanMax, scanMaxQ, addScore, Scores.entries,
      Scores.total, Counts.entries, obsTotal, sC1, sC1fix, runLearns, learn, updatePatterns,
      bumpPattern, bumpObs, setA, lookupA, lastN, initState, Counts.incr, TransTable.incr,
      TransTable.row, counterMove, Counts.total, Scores.zero, Counts.zero, TransTable.zero]

theorem getConfidence_sC1fix : getConfidence sC1fix = 100 := by
  norm_num [getConfidence, jsRound, sC1fix]

theorem getMove_sC1 (r : Move) : getMove r sC1 = (Move.paper, sC1fix) := by
  show (counterMove (predict r sC1).1, (predict r sC1).2) = (Move.paper, sC1fix)
  rw [predict_sC1 r]
  rfl

theorem getMove_sC1fix (r : Move) : getMove r sC1fix = (Move.paper, sC1fix) := by
  show (counterMove (predict r sC1fix).1, (predict r sC1fix).2) = (Move.paper, sC1fix)
  rw [predict_sC1fix r]
  rfl

theorem runGetMoves_sC1fix (rs : List Move) : runGetMoves rs sC1fix = sC1fix := by
  induction rs with
  | nil => rfl
  | cons a t ih =>
    show runGetMoves t (getMove a sC1fix).2 = sC1fix
    rw [getMove_sC1fix a]
    exact ih

/-- C1: after a fresh engine observes six ROCKs, every subsequent
`getMove()` call returns PAPER, and the `getConfidence()` read right
after it returns a value ≥ 90 (in fact exactly 100). The list `rs`
ranges over the random oracles of any earlier `getMove` calls made after
the six observations, so the claim holds for the 1st, 2nd, … such call. -/
theorem six_rocks_getMove_paper_conf_ge_90 (rs : List Move) (r : Move) :
    (getMove r (runGetMoves rs sC1)).1 = Move.paper ∧
      90 ≤ getConfidence (getMove r (runGetMoves rs sC1)).2 := by
  have hrun : runGetMoves rs sC1 = sC1 ∨ runGetMoves rs sC1 = sC1fix := by
    cases rs with
    | nil => exact Or.inl rfl
    | cons a t =>
      refine Or.inr ?_
      show runGetMoves t (getMove a sC1).2 = sC1fix
      rw [getMove_sC1 a]
      exact runGetMoves_sC1fix t
  have hconf : (90 : ℤ) ≤ getConfidence sC1fix := by
    rw [getConfidence_sC1fix]; norm_num
  rcases hrun with h | h <;> rw [h]
  · rw [getMove_sC1 r]
    exact ⟨rfl, hconf⟩
  · rw [getMove_sC1fix r]
    exact ⟨rfl, hconf⟩

/-- C2 counterexample: `sC2` is reachable (five observations: four PAPER
then ROCK), has `totalMoves = 5`, yet the Markov sub-predictor abstains,
because the latest move ROCK has never been followed by anything. -/
theorem warm_markov_abstains_cex :
    Reachable sC2 ∧ 5 ≤ sC2.totalMoves ∧ predictByMarkov sC2 = (none, 0) :=
  ⟨reachable_runLearns _ initState Reachable.init, by decide, by decide⟩

/-- C2 as amended: in every reachable state with `totalMoves ≥ 5` the
frequency sub-predictor does return a non-abstaining prediction and the
combiner's accumulated scores are not all zero (their sum is positive),
so the all-scores-zero ROCK default is unreachable in the warm regime;
the Markov sub-predictor, however, may abstain. -/
theorem warm_frequency_fires_and_scores_positive (s : AIState) (r : Move)
    (h : Reachable s) (h5 : 5 ≤ s.totalMoves) :
    (predictByFrequency s).1 ≠ none ∧ 0 < (combinedScores r s).total := by
  have hsum := reachable_counts_sum h
  have hff := predictByFrequency_pos s hsum h5
  constructor
  · rw [hff.1]
    simp
  · show 0 < (addScore (addScore (addScore
        (addScore Scores.zero (predictByFrequency s) (0.2 : ℚ))
        (predictByMarkov s) (0.4 : ℚ)) (predictByPattern s) (0.3 : ℚ))
        (predictByMeta r s) (0.1 : ℚ)).total
    have base : 0 < (addScore Scores.zero (predictByFrequency s) (0.2 : ℚ)).total := by
      rw [Scores.total_addScore_some Scores.zero (predictByFrequency s) (0.2 : ℚ)
        (scanMax s.moveCounts.entries).1 hff.1]
      have h02 : (0 : ℚ) < 0.2 * (predictByFrequency s).2 :=
        mul_pos (by norm_num) hff.2
      have hz : Scores.zero.total = 0 := by norm_num [Scores.total, Scores.zero]
      rw [hz]
      linarith
    have m1 := Scores.total_addScore_le
      (addScore Scores.zero (predictByFrequency s) (0.2 : ℚ))
      (predictByMarkov s) (0.4 : ℚ)
      (mul_nonneg (by norm_num) (predictByMarkov_nonneg s))
    have m2 := Scores.total_addScore_le
      (addScore (addScore Scores.zero (predictByFrequency s) (0.2 : ℚ))
        (predictByMarkov s) (0.4 : ℚ))
      (predictByPattern s) (0.3 : ℚ)
      (mul_nonneg (by norm_num) (predictByPattern_nonneg s))
    have m3 := Scores.total_addScore_le
      (addScore (addScore (addScore Scores.zero (predictByFrequency s) (0.2 : ℚ))
        (predictByMarkov s) (0.4 : ℚ)) (predictByPattern s) (0.3 : ℚ))
      (predictByMeta r s) (0.1 : ℚ)
      (mul_nonneg (by norm_num) (predictByMeta_nonneg r s))
    linarith

/-- C2 witness: the amended theorem applied to the concrete reachable
state `sC2`, whose hypotheses hold. -/
theorem warm_frequency_fires_and_scores_positive_witness :
    (predictByFrequency sC2).1 ≠ none ∧ 0 < (combinedScores Move.rock sC2).total :=
  warm_frequency_fires_and_scores_positive sC2 Move.rock
    (reachable_runLearns _ initState Reachable.init) (by decide)

/-- C3 counterexample: `getPatternsSummary` has no limit parameter — its
cutoff is the hard-coded `slice(0, 5)`. On the reachable state `sC3`
(nine stored patterns), the spec-described call with limit 6 returns 6
entries while the source function returns 5, so no configurable-limit
behavior is implemented. -/
theorem patterns_summary_limit_cex :
    getPatternsSummarySpec 6 sC3 ≠ getPatternsSummary sC3 ∧
      (getPatternsSummary sC3).length = 5 ∧ (getPatternsSummarySpec 6 sC3).length = 6 := by
  refine ⟨?_, ?_, ?_⟩ <;> decide

/-- C3 as amended: `getPatternsSummary` takes no parameter; for every
state it returns at most 5 entries `{pattern, nextMoves, total}`, namely
the first 5 of the entries ranked by total observation count descending
with ties broken by insertion order (earlier-inserted pattern first); the
ranking is a permutation of the table's entries. -/
theorem patterns_summary_top5_sorted_stable (s : AIState) :
    (getPatternsSummary s).length ≤ 5 ∧
      getPatternsSummary s = ((rankedSummaries s).take 5).map (fun e => e.2) ∧
      List.Perm (rankedSummaries s) (summaryEntries s) ∧
      List.Pairwise
        (fun a b : Nat × PatternSummary =>
          b.2.total < a.2.total ∨ (a.2.total = b.2.total ∧ a.1 < b.1))
        (rankedSummaries s) := by
  refine ⟨?_, rfl, perm_rankedSummaries s, pairwise_rankedSummaries s⟩
  rw [getPatternsSummary, List.length_map]
  exact List.length_take_le 5 _

/-- C4: `observe` does not fail fast on an out-of-domain value. At the
string level, `learn('lizard')` on a fresh engine completes (no throw),
increments `totalMoves`, and stores a `NaN` entry under the junk key in
the frequency table — the silent corruption the spec says should be
rejected. -/
theorem observe_out_of_domain_mutates_tables :
    (jsLearn "lizard" jsInit).isSome = true ∧
      (jsLearn "lizard" jsInit).map JSState.totalMoves = some 1 ∧
      (jsLearn "lizard" jsInit).map (fun s => lookupA s.moveCounts "lizard")
        = some (some JVal.nan) ∧
      (jsLearn "lizard" jsInit).map JSState.history = some ["lizard"] := by
  decide

/-- C5: one `observe(m)` call rewrites the pattern table exactly as
follows: the cell for window `key` and next move `mv` is incremented by 1
precisely when `key` is the window of the last `L` pre-append history
moves for some length `L ∈ {2, 3, 4}` with at least `L` moves of history,
and `mv = m`; every other cell is unchanged. In particular at most 3 (so
at most 4) table entries change per call. -/
theorem observe_updates_pattern_windows (s : AIState) (m : Move) (key : List Move) (mv : Move) :
    (learn m s).patterns = updatePatterns s.history m s.patterns ∧
      patLookup (learn m s).patterns key mv =
        patLookup s.patterns key mv +
          if 2 ≤ key.length ∧ key.length ≤ 4 ∧ key.length ≤ s.history.length ∧
              key = lastN key.length s.history ∧ mv = m
          then 1 else 0 :=
  ⟨rfl, updatePatterns_patLookup s.history m s.patterns key mv⟩

/-- C6: in every reachable state — in particular after every `observe`
call of any observation sequence from a fresh or reset engine — the three
frequency counts sum to `totalMoves`. -/
theorem counts_sum_eq_totalMoves (s : AIState) (h : Reachable s) :
    s.moveCounts.total = s.totalMoves :=
  reachable_counts_sum h

/-- C6 witness: the invariant at the concrete reachable state after
observing ROCK then PAPER. -/
theorem counts_sum_eq_totalMoves_witness :
    (runLearns [Move.rock, Move.paper] initState).moveCounts.total =
      (runLearns [Move.rock, Move.paper] initState).totalMoves :=
  counts_sum_eq_totalMoves _ (reachable_runLearns _ initState Reachable.init)

/-- C7: `observe(m)` increments `counterAttempts` by exactly 1 when a
last prediction exists and `m` is its counter-move, and leaves it
unchanged otherwise (other `m`, or no last prediction). -/
theorem observe_counter_attempt_increment (s : AIState) (m : Move) :
    (learn m s).counterAttempts =
      s.counterAttempts + if s.lastPrediction.map counterMove = some m then 1 else 0 := by
  cases hp : s.lastPrediction with
  | none => simp [learn, hp]
  | some p => by_cases h : counterMove p = m <;> simp [learn, hp, h]

/-- C8 counterexample: `getRecentHistory(0)` does not return at most 0
moves: since `-0 === 0` in JS, `slice(-0)` is `slice(0)` and the whole
history comes back (here one move after observing a single ROCK). -/
theorem recent_history_zero_cex :
    getRecentHistory 0 sC8 = [Move.rock] ∧ ¬((getRecentHistory 0 sC8).length ≤ 0) := by
  decide

/-- C8 as amended: for every state and every n ≥ 1 (the source default is
n = 10), `getRecentHistory(n)` returns at most `n` moves forming a suffix
of the chronological history, i.e. in order with the most recent last;
for n = 0 the whole history is returned instead. -/
theorem recent_history_bounded_suffix (s : AIState) (n : Nat) (h : 1 ≤ n) :
    (getRecentHistory n s).length ≤ n ∧
      ∃ pre, pre ++ getRecentHistory n s = s.history := by
  have hn : ¬(n = 0) := by omega
  unfold getRecentHistory
  rw [if_neg hn]
  refine ⟨?_, s.history.take (s.history.length - n), List.take_append_drop _ _⟩
  rw [List.length_drop]
  omega

/-- C8 witness: the amended theorem applied at n = 1 on the one-move
state. -/
theorem recent_history_bounded_suffix_witness :
    (getRecentHistory 1 sC8).length ≤ 1 ∧
      ∃ pre, pre ++ getRecentHistory 1 sC8 = sC8.history :=
  recent_history_bounded_suffix sC8 1 (by decide)

/-- C9: `reset()` rebuilds exactly the constructor state, for any state
whatsoever (hence for every reachable one), so resetting twice equals
resetting once. -/
theorem reset_idempotent_eq_fresh (s : AIState) :
    reset s = initState ∧ reset (reset s) = reset s :=
  ⟨rfl, rfl⟩

/-- C10: in the cold-start regime (`totalMoves < 5`) `predict` returns
the random move and sets `lastConfidence := 33` while leaving every other
field — in particular `lastPrediction` — unchanged; consequently a fresh
engine driven through at most five getMove-then-observe rounds still has
`lastPrediction = null` and `counterAttempts = 0`. -/
theorem cold_predict_frame_and_cold_rounds (r : Move) (s : AIState) (ps : List (Move × Move)) :
    (s.totalMoves < 5 → predict r s = (r, { s with lastConfidence := 33 })) ∧
      (ps.length ≤ 5 →
        (runRounds ps initState).lastPrediction = none ∧
          (runRounds ps initState).counterAttempts = 0) := by
  refine ⟨fun h => predict_cold r s h, fun h => ?_⟩
  have key := runRounds_cold ps initState rfl rfl (by simpa [initState] using h)
  exact ⟨key.1, key.2.1⟩

/-- C10 witness: both parts at concrete inputs — a fresh engine (0 < 5
total moves) and a single getMove-then-observe round. -/
theorem cold_predict_frame_and_cold_rounds_witness :
    predict Move.rock initState = (Move.rock, { initState with lastConfidence := 33 }) ∧
      ((runRounds [(Move.rock, Move.paper)] initState).lastPrediction = none ∧
        (runRounds [(Move.rock, Move.paper)] initState).counterAttempts = 0) :=
  ⟨(cold_predict_frame_and_cold_rounds Move.rock initState [(Move.rock, Move.paper)]).1
      (by decide),
    (cold_predict_frame_and_cold_rounds Move.rock initState [(Move.rock, Move.paper)]).2
      (by decide)⟩
